import Mathlib

/-
Verification of the LSGD analysis engine: shallow embedding of the
aggregation, rank-resolution, leader, strength-bucket and ward-pairing
logic of the source pages, with theorems checking the specification.
-/

namespace LSGD

/-! ## Strength classifier (pages/6_Front.py, lines 135-153)

The source function receives a lead value that may be missing (pd.isna)
or numeric; numeric values are modelled as rationals, a missing or
non-numeric lead as `Option.none`. -/

def leadToStrength : Option ℚ → Option String
  | none => none
  | some x =>
    if x ≤ -500 then some "-500 or less"
    else if -500 < x ∧ x ≤ -200 then some "-200 to -499"
    else if -200 < x ∧ x ≤ -100 then some "-100 to -199"
    else if -100 < x ∧ x ≤ -50 then some "-50 to -99"
    else if -50 < x ∧ x ≤ -1 then some "-1 to -49"
    else if x = 0 then some "0"
    else if 0 < x ∧ x ≤ 49 then some "1-49"
    else if 50 ≤ x ∧ x ≤ 99 then some "50-99"
    else if 100 ≤ x ∧ x ≤ 199 then some "100-199"
    else if 200 ≤ x ∧ x ≤ 499 then some "200-499"
    else if 500 ≤ x then some "500+"
    else none

/-- Modelled from the spec: the fixed 11-bucket table of section 4.5,
read over integer margins, where it is a sequential exhaustive chain. -/
def strengthBucketSpec (m : ℤ) : String :=
  if m ≤ -500 then "-500 or less"
  else if m ≤ -200 then "-200 to -499"
  else if m ≤ -100 then "-100 to -199"
  else if m ≤ -50 then "-50 to -99"
  else if m ≤ -1 then "-1 to -49"
  else if m = 0 then "0"
  else if m ≤ 49 then "1-49"
  else if m ≤ 99 then "50-99"
  else if m ≤ 199 then "100-199"
  else if m ≤ 499 then "200-499"
  else "500+"

/-- The five open intervals of the lead axis on which the source
if-chain falls through every branch. -/
def strengthGap (q : ℚ) : Prop :=
  (-1 < q ∧ q < 0) ∨ (49 < q ∧ q < 50) ∨ (99 < q ∧ q < 100) ∨
  (199 < q ∧ q < 200) ∨ (499 < q ∧ q < 500)

instance (q : ℚ) : Decidable (strengthGap q) := by
  unfold strengthGap; infer_instance

lemma leadToStrength_int (m : ℤ) :
    leadToStrength (some (m : ℚ)) = some (strengthBucketSpec m) := by
  by_cases h1 : m ≤ -500
  · have a1 : (m : ℚ) ≤ -500 := by exact_mod_cast h1
    simp [leadToStrength, strengthBucketSpec, h1, a1]
  by_cases h2 : m ≤ -200
  · have a1 : ¬ ((m : ℚ) ≤ -500) := by exact_mod_cast h1
    have a2 : (-500 : ℚ) < (m : ℚ) := by
      exact_mod_cast (show (-500 : ℤ) < m by omega)
    have a3 : (m : ℚ) ≤ -200 := by exact_mod_cast h2
    simp [leadToStrength, strengthBucketSpec, h1, h2, a1, a2, a3]
  by_cases h3 : m ≤ -100
  · have a1 : ¬ ((m : ℚ) ≤ -500) := by exact_mod_cast h1
    have a2 : ¬ ((m : ℚ) ≤ -200) := by exact_mod_cast h2
    have a3 : (-200 : ℚ) < (m : ℚ) := by
      exact_mod_cast (show (-200 : ℤ) < m by omega)
    have a4 : (m : ℚ) ≤ -100 := by exact_mod_cast h3
    simp [leadToStrength, strengthBucketSpec, h1, h2, h3, a1, a2, a3, a4]
  by_cases h4 : m ≤ -50
  · have a1 : ¬ ((m : ℚ) ≤ -500) := by exact_mod_cast h1
    have a2 : ¬ ((m : ℚ) ≤ -200) := by exact_mod_cast h2
    have a3 : ¬ ((m : ℚ) ≤ -100) := by exact_mod_cast h3
    have a4 : (-100 : ℚ) < (m : ℚ) := by
      exact_mod_cast (show (-100 : ℤ) < m by omega)
    have a5 : (m : ℚ) ≤ -50 := by exact_mod_cast h4
    simp [leadToStrength, strengthBucketSpec, h1, h2, h3, h4, a1, a2, a3,
      a4, a5]
  by_cases h5 : m ≤ -1
  · have a1 : ¬ ((m : ℚ) ≤ -500) := by exact_mod_cast h1
    have a2 : ¬ ((m : ℚ) ≤ -200) := by exact_mod_cast h2
    have a3 : ¬ ((m : ℚ) ≤ -100) := by exact_mod_cast h3
    have a4 : ¬ ((m : ℚ) ≤ -50) := by exact_mod_cast h4
    have a5 : (-50 : ℚ) < (m : ℚ) := by
      exact_mod_cast (show (-50 : ℤ) < m by omega)
    have a6 : (m : ℚ) ≤ -1 := by exact_mod_cast h5
    simp [leadToStrength, strengthBucketSpec, h1, h2, h3, h4, h5, a1, a2,
      a3, a4, a5, a6]
  by_cases h6 : m = 0
  · have a1 : ¬ ((m : ℚ) ≤ -500) := by exact_mod_cast h1
    have a2 : ¬ ((m : ℚ) ≤ -200) := by exact_mod_cast h2
    have a3 : ¬ ((m : ℚ) ≤ -100) := by exact_mod_cast h3
    have a4 : ¬ ((m : ℚ) ≤ -50) := by exact_mod_cast h4
    have a5 : ¬ ((m : ℚ) ≤ -1) := by exact_mod_cast h5
    have a6 : (m : ℚ) = 0 := by exact_mod_cast h6
    simp only [leadToStrength, strengthBucketSpec, h1, h2, h3, h4, h5, h6,
      a1, a2, a3, a4, a5, a6]
    norm_num
  by_cases h7 : m ≤ 49
  · have a1 : ¬ ((m : ℚ) ≤ -500) := by exact_mod_cast h1
    have a2 : ¬ ((m : ℚ) ≤ -200) := by exact_mod_cast h2
    have a3 : ¬ ((m : ℚ) ≤ -100) := by exact_mod_cast h3
    have a4 : ¬ ((m : ℚ) ≤ -50) := by exact_mod_cast h4
    have a5 : ¬ ((m : ℚ) ≤ -1) := by exact_mod_cast h5
    have a6 : ¬ ((m : ℚ) = 0) := by exact_mod_cast h6
    have a7 : (0 : ℚ) < (m : ℚ) := by
      exact_mod_cast (show (0 : ℤ) < m by omega)
    have a8 : (m : ℚ) ≤ 49 := by exact_mod_cast h7
    simp [leadToStrength, strengthBucketSpec, h1, h2, h3, h4, h5, h6, h7,
      a1, a2, a3, a4, a5, a6, a7, a8]
  by_cases h8 : m ≤ 99
  · have a1 : ¬ ((m : ℚ) ≤ -500) := by exact_mod_cast h1
    have a2 : ¬ ((m : ℚ) ≤ -200) := by exact_mod_cast h2
    have a3 : ¬ ((m : ℚ) ≤ -100) := by exact_mod_cast h3
    have a4 : ¬ ((m : ℚ) ≤ -50) := by exact_mod_cast h4
    have a5 : ¬ ((m : ℚ) ≤ -1) := by exact_mod_cast h5
    have a6 : ¬ ((m : ℚ) = 0) := by exact_mod_cast h6
    have a7 : ¬ ((m : ℚ) ≤ 49) := by exact_mod_cast h7
    have a8 : (50 : ℚ) ≤ (m : ℚ) := by
      exact_mod_cast (show (50 : ℤ) ≤ m by omega)
    have a9 : (m : ℚ) ≤ 99 := by exact_mod_cast h8
    simp [leadToStrength, strengthBucketSpec, h1, h2, h3, h4, h5, h6, h7,
      h8, a1, a2, a3, a4, a5, a6, a7, a8, a9]
  by_cases h9 : m ≤ 199
  · have a1 : ¬ ((m : ℚ) ≤ -500) := by exact_mod_cast h1
    have a2 : ¬ ((m : ℚ) ≤ -200) := by exact_mod_cast h2
    have a3 : ¬ ((m : ℚ) ≤ -100) := by exact_mod_cast h3
    have a4 : ¬ ((m : ℚ) ≤ -50) := by exact_mod_cast h4
    have a5 : ¬ ((m : ℚ) ≤ -1) := by exact_mod_cast h5
    have a6 : ¬ ((m : ℚ) = 0) := by exact_mod_cast h6
    have a7 : ¬ ((m : ℚ) ≤ 49) := by exact_mod_cast h7
    have a8 : ¬ ((m : ℚ) ≤ 99) := by exact_mod_cast h8
    have a9 : (100 : ℚ) ≤ (m : ℚ) := by
      exact_mod_cast (show (100 : ℤ) ≤ m by omega)
    have a10 : (m : ℚ) ≤ 199 := by exact_mod_cast h9
    simp [leadToStrength, strengthBucketSpec, h1, h2, h3, h4, h5, h6, h7,
      h8, h9, a1, a2, a3, a4, a5, a6, a7, a8, a9, a10]
  by_cases h10 : m ≤ 499
  · have a1 : ¬ ((m : ℚ) ≤ -500) := by exact_mod_cast h1
    have a2 : ¬ ((m : ℚ) ≤ -200) := by exact_mod_cast h2
    have a3 : ¬ ((m : ℚ) ≤ -100) := by exact_mod_cast h3
    have a4 : ¬ ((m : ℚ) ≤ -50) := by exact_mod_cast h4
    have a5 : ¬ ((m : ℚ) ≤ -1) := by exact_mod_cast h5
    have a6 : ¬ ((m : ℚ) = 0) := by exact_mod_cast h6
    have a7 : ¬ ((m : ℚ) ≤ 49) := by exact_mod_cast h7
    have a8 : ¬ ((m : ℚ) ≤ 99) := by exact_mod_cast h8
    have a9 : ¬ ((m : ℚ) ≤ 199) := by exact_mod_cast h9
    have a10 : (200 : ℚ) ≤ (m : ℚ) := by
      exact_mod_cast (show (200 : ℤ) ≤ m by omega)
    have a11 : (m : ℚ) ≤ 499 := by exact_mod_cast h10
    simp [leadToStrength, strengthBucketSpec, h1, h2, h3, h4, h5, h6, h7,
      h8, h9, h10, a1, a2, a3, a4, a5, a6, a7, a8, a9, a10, a11]
  · have a1 : ¬ ((m : ℚ) ≤ -500) := by exact_mod_cast h1
    have a2 : ¬ ((m : ℚ) ≤ -200) := by exact_mod_cast h2
    have a3 : ¬ ((m : ℚ) ≤ -100) := by exact_mod_cast h3
    have a4 : ¬ ((m : ℚ) ≤ -50) := by exact_mod_cast h4
    have a5 : ¬ ((m : ℚ) ≤ -1) := by exact_mod_cast h5
    have a6 : ¬ ((m : ℚ) = 0) := by exact_mod_cast h6
    have a7 : ¬ ((m : ℚ) ≤ 49) := by exact_mod_cast h7
    have a8 : ¬ ((m : ℚ) ≤ 99) := by exact_mod_cast h8
    have a9 : ¬ ((m : ℚ) ≤ 199) := by exact_mod_cast h9
    have a10 : ¬ ((m : ℚ) ≤ 499) := by exact_mod_cast h10
    have a11 : (500 : ℚ) ≤ (m : ℚ) := by
      exact_mod_cast (show (500 : ℤ) ≤ m by omega)
    simp [leadToStrength, strengthBucketSpec, h1, h2, h3, h4, h5, h6, h7,
      h8, h9, h10, a1, a2, a3, a4, a5, a6, a7, a8, a9, a10, a11]

lemma leadToStrength_gap (q : ℚ) (hg : strengthGap q) :
    leadToStrength (some q) = none := by
  rcases hg with ⟨hlo, hhi⟩ | ⟨hlo, hhi⟩ | ⟨hlo, hhi⟩ | ⟨hlo, hhi⟩ |
    ⟨hlo, hhi⟩ <;>
    (simp only [leadToStrength]
     rw [if_neg (by intro h; linarith),
       if_neg (by rintro ⟨u, v⟩; linarith),
       if_neg (by rintro ⟨u, v⟩; linarith),
       if_neg (by rintro ⟨u, v⟩; linarith),
       if_neg (by rintro ⟨u, v⟩; linarith),
       if_neg (by intro h; linarith),
       if_neg (by rintro ⟨u, v⟩; linarith),
       if_neg (by rintro ⟨u, v⟩; linarith),
       if_neg (by rintro ⟨u, v⟩; linarith),
       if_neg (by rintro ⟨u, v⟩; linarith),
       if_neg (by intro h; linarith)])

set_option maxHeartbeats 1000000 in
lemma leadToStrength_none_gap (q : ℚ) (h : leadToStrength (some q) = none) :
    strengthGap q := by
  simp only [leadToStrength] at h
  split_ifs at h with c1 c2 c3 c4 c5 c6 c7 c8 c9 c10 c11 <;>
    try exact absurd h (Option.some_ne_none _)
  unfold strengthGap
  have g1 : -500 < q := not_le.mp c1
  rcases not_and_or.mp c2 with hx | hx
  · exact absurd g1 hx
  have g2 : -200 < q := not_le.mp hx
  rcases not_and_or.mp c3 with hx | hx
  · exact absurd g2 hx
  have g3 : -100 < q := not_le.mp hx
  rcases not_and_or.mp c4 with hx | hx
  · exact absurd g3 hx
  have g4 : -50 < q := not_le.mp hx
  rcases not_and_or.mp c5 with hx | hx
  · exact absurd g4 hx
  have g5 : -1 < q := not_le.mp hx
  rcases not_and_or.mp c7 with hx | hx
  · exact Or.inl ⟨g5, lt_of_le_of_ne (not_lt.mp hx) c6⟩
  have g7 : 49 < q := not_le.mp hx
  rcases not_and_or.mp c8 with hx | hx
  · exact Or.inr (Or.inl ⟨g7, not_le.mp hx⟩)
  have g8 : 99 < q := not_le.mp hx
  rcases not_and_or.mp c9 with hx | hx
  · exact Or.inr (Or.inr (Or.inl ⟨g8, not_le.mp hx⟩))
  have g9 : 199 < q := not_le.mp hx
  rcases not_and_or.mp c10 with hx | hx
  · exact Or.inr (Or.inr (Or.inr (Or.inl ⟨g9, not_le.mp hx⟩)))
  have g10 : 499 < q := not_le.mp hx
  exact Or.inr (Or.inr (Or.inr (Or.inr ⟨g10, not_le.mp c11⟩)))

/-- C4: for every integer margin the strength classifier returns the bucket
label assigned by the fixed 11-bucket table of the spec, and in particular
margins -499 and -200 map to "-200 to -499", -199 maps to "-100 to -199",
0 maps to "0", 75 maps to "50-99", and 500 maps to "500+". -/
theorem C4_strength_classifier_matches_table :
    (∀ m : ℤ, leadToStrength (some (m : ℚ)) = some (strengthBucketSpec m))
    ∧ leadToStrength (some (-499 : ℚ)) = some "-200 to -499"
    ∧ leadToStrength (some (-200 : ℚ)) = some "-200 to -499"
    ∧ leadToStrength (some (-199 : ℚ)) = some "-100 to -199"
    ∧ leadToStrength (some (0 : ℚ)) = some "0"
    ∧ leadToStrength (some (75 : ℚ)) = some "50-99"
    ∧ leadToStrength (some (500 : ℚ)) = some "500+" := by
  refine ⟨leadToStrength_int, ?_, ?_, ?_, ?_, ?_, ?_⟩ <;>
    norm_num [leadToStrength]

/-- C5 counterexample: the numeric margin -1/2 is mapped to null by the
classifier, refuting the claim that every numeric margin receives a
non-null bucket label. -/
theorem C5_strength_gap_counterexample :
    leadToStrength (some (-(1 : ℚ) / 2)) = none ∧
      (some (-(1 : ℚ) / 2)).isSome = true := by
  constructor
  · norm_num [leadToStrength]
  · rfl

/-- C5 amended: the classifier returns null exactly when the margin is
missing or is a numeric value inside one of the five uncovered open
intervals (-1,0), (49,50), (99,100), (199,200), (499,500); every other
numeric margin receives a bucket label. -/
theorem C5_strength_null_characterization :
    ∀ x : Option ℚ, leadToStrength x = none ↔
      x = none ∨ ∃ q, x = some q ∧ strengthGap q := by
  intro x
  cases x with
  | none => simp [leadToStrength]
  | some q =>
    constructor
    · intro h
      exact Or.inr ⟨q, rfl, leadToStrength_none_gap q h⟩
    · rintro (h | ⟨q', hq', hg⟩)
      · exact absurd h (by simp)
      · have hqq : q = q' := by
          simpa using hq'
        rw [hqq]
        exact leadToStrength_gap q' hg

/-! ## Counting helpers (generic list lemmas used by the aggregation
theorems) -/

section Counting

variable {α β : Type}

/-- Number of elements of a list whose key equals a given value. -/
def countKey [DecidableEq β] (key : α → β) (l : List α) (u : β) : ℕ :=
  (l.filter (fun a => decide (key a = u))).length

lemma countKey_cons [DecidableEq β] (key : α → β) (a : α) (t : List α) (u : β) :
    countKey key (a :: t) u =
      countKey key t u + (if key a = u then 1 else 0) := by
  by_cases h : key a = u
  · simp [countKey, List.filter_cons, h, Nat.add_comm]
  · simp [countKey, List.filter_cons, h]

lemma sum_map_nat_add (l : List β) (f g : β → ℕ) :
    (l.map (fun b => f b + g b)).sum = (l.map f).sum + (l.map g).sum := by
  induction l with
  | nil => simp
  | cons b t ih => simp [ih]; omega

lemma sum_map_ite_single [DecidableEq β] (ks : List β) (hnd : ks.Nodup) (c : β)
    (hc : c ∈ ks) (g : β → ℕ) :
    (ks.map (fun u => if c = u then g u else 0)).sum = g c := by
  induction ks with
  | nil => cases hc
  | cons u t ih =>
    rcases List.mem_cons.mp hc with h | h
    · subst h
      have hnotmem : c ∉ t := (List.nodup_cons.mp hnd).1
      have hz : (t.map (fun u => if c = u then g u else 0)).sum = 0 := by
        rw [List.sum_eq_zero]
        intro x hx
        rcases List.mem_map.mp hx with ⟨v, hv, hvx⟩
        have : c ≠ v := fun hcv => hnotmem (hcv ▸ hv)
        simp [this] at hvx
        omega
      simp [hz]
    · have hne : c ≠ u := by
        intro hcu
        subst hcu
        exact (List.nodup_cons.mp hnd).1 h
      simp [hne, ih (List.nodup_cons.mp hnd).2 h]

/-- Summing a key-dependent weight over a list equals summing, over any
duplicate-free covering key list, the per-key count times the weight. -/
lemma sum_fiberwise [DecidableEq β] (key : α → β) (g : β → ℕ) :
    ∀ (l : List α) (ks : List β), ks.Nodup → (∀ a ∈ l, key a ∈ ks) →
      (l.map (fun a => g (key a))).sum =
        (ks.map (fun u => countKey key l u * g u)).sum := by
  intro l
  induction l with
  | nil =>
    intro ks _ _
    simp [countKey]
  | cons a t ih =>
    intro ks hnd hcov
    have hcovt : ∀ x ∈ t, key x ∈ ks := fun x hx =>
      hcov x (List.mem_cons_of_mem a hx)
    have hka : key a ∈ ks := hcov a (List.mem_cons_self a t)
    have hcnt : ∀ u, countKey key (a :: t) u =
        countKey key t u + (if key a = u then 1 else 0) :=
      fun u => countKey_cons key a t u
    calc ((a :: t).map (fun x => g (key x))).sum
        = g (key a) + (t.map (fun x => g (key x))).sum := by simp
      _ = g (key a) +
          (ks.map (fun u => countKey key t u * g u)).sum := by
            rw [ih ks hnd hcovt]
      _ = (ks.map (fun u => countKey key (a :: t) u * g u)).sum := by
            have hexp : (ks.map (fun u => countKey key (a :: t) u * g u)) =
                ks.map (fun u => countKey key t u * g u +
                  (if key a = u then g u else 0)) := by
              apply List.map_congr_left
              intro u _
              rw [hcnt u]
              by_cases h : key a = u <;> simp [h] <;> ring
            rw [hexp, sum_map_nat_add,
              sum_map_ite_single ks hnd (key a) hka g]
            omega

lemma sum_map_one (l : List α) : (l.map (fun _ => (1 : ℕ))).sum = l.length := by
  induction l with
  | nil => rfl
  | cons a t ih => simp [ih]; omega

lemma length_filter_le_of_imp (l : List α) (p q : α → Bool)
    (h : ∀ a, p a = true → q a = true) :
    (l.filter p).length ≤ (l.filter q).length := by
  induction l with
  | nil => simp
  | cons a t ih =>
    by_cases hp : p a = true
    · simp [List.filter_cons, hp, h a hp]
      omega
    · simp only [List.filter_cons]
      by_cases hq : q a = true <;>
        simp [hp, hq] <;> omega

lemma sum_split_key [DecidableEq β] (c : β) (f : β → ℕ) :
    ∀ (ks : List β), ks.Nodup →
      (ks.map f).sum = (if c ∈ ks then f c else 0) +
        ((ks.filter (fun u => decide (u ≠ c))).map f).sum := by
  intro ks
  induction ks with
  | nil => simp
  | cons u t ih =>
    intro hnd
    obtain ⟨hu, hndt⟩ := List.nodup_cons.mp hnd
    by_cases h : u = c
    · subst h
      have : u ∉ t := hu
      simp [List.filter_cons, ih hndt, this]
    · have hmem : (c ∈ u :: t) = (c ∈ t) := by
        simp [List.mem_cons, Ne.symm h]
      simp only [List.map_cons, List.sum_cons, List.filter_cons]
      rw [ih hndt]
      by_cases hc : c ∈ t <;> simp [h, hc, Ne.symm, hmem] <;> omega

end Counting

/-! ## Rank resolver (pages/6_Front.py lines 94-127, and the analogous
crosstab in pages/2_District.py lines 134-153)

A record for this computation carries the grouping label (LBType there,
Party in the District page) and the possibly absent rank. pd.crosstab
drops rows whose rank is NaN, so a record contributes to a rank column
exactly when its rank is present. -/

structure RankRec where
  group : String
  rank : Option ℤ
deriving DecidableEq

/-- Count for the crosstab cell (group, rank value). -/
def rankCell (d : List RankRec) (g : String) (k : ℤ) : ℕ :=
  (d.filter (fun r => decide (r.group = g ∧ r.rank = some k))).length

/-- The rank values observed anywhere in the record set: the columns of
the crosstab. -/
def observedRanks (d : List RankRec) : List ℤ :=
  (d.filterMap (fun r => r.rank)).dedup

/-- The Won column: crosstab column of rank 1. -/
def wonCount (d : List RankRec) (g : String) : ℕ := rankCell d g 1

/-- Contested: the row-wise sum of all rank columns, as the source
computes with xt[rank_cols].sum(axis=1). -/
def contested (d : List RankRec) (g : String) : ℕ :=
  ((observedRanks d).map (rankCell d g)).sum

/-- Strike rate: Won / Contested * 100 when Contested is positive, else 0. -/
def strikeRate (d : List RankRec) (g : String) : ℚ :=
  if 0 < contested d g then (wonCount d g : ℚ) / (contested d g : ℚ) * 100
  else 0

/-- Number of records of the group whose rank is present. -/
def countRanked (d : List RankRec) (g : String) : ℕ :=
  (d.filter (fun r => decide (r.group = g ∧ r.rank.isSome))).length

lemma rankCell_eq_countKey (d : List RankRec) (g : String) (k : ℤ) :
    rankCell d g k = countKey (fun r => r.rank.getD 0)
      (d.filter (fun r => decide (r.group = g ∧ r.rank.isSome))) k := by
  unfold rankCell countKey
  rw [List.filter_filter]
  congr 1
  apply List.filter_congr
  intro r _
  cases hr : r.rank with
  | none => simp [hr]
  | some v =>
    by_cases hg : r.group = g <;> by_cases hv : v = k <;>
      simp [hr, hg, hv]

lemma contested_eq_countRanked (d : List RankRec) (g : String) :
    contested d g = countRanked d g := by
  unfold contested countRanked
  set l := d.filter (fun r => decide (r.group = g ∧ r.rank.isSome)) with hl
  have hcov : ∀ r ∈ l, (fun r => r.rank.getD 0) r ∈ observedRanks d := by
    intro r hr
    obtain ⟨hrd, hp⟩ := List.mem_filter.mp hr
    rw [decide_eq_true_eq] at hp
    obtain ⟨v, hv⟩ := Option.isSome_iff_exists.mp hp.2
    simp only [hv, Option.getD_some]
    exact List.mem_dedup.mpr
      (List.mem_filterMap.mpr ⟨r, hrd, hv⟩)
  have hfib := sum_fiberwise (fun r : RankRec => r.rank.getD 0)
    (fun _ => 1) l (observedRanks d) (List.nodup_dedup _) hcov
  rw [sum_map_one] at hfib
  rw [hfib]
  congr 1
  apply List.map_congr_left
  intro k _
  have hck := rankCell_eq_countKey d g k
  rw [← hl] at hck
  simp [hck]

lemma wonCount_le_contested (d : List RankRec) (g : String) :
    wonCount d g ≤ contested d g := by
  rw [contested_eq_countRanked]
  unfold wonCount rankCell countRanked
  apply length_filter_le_of_imp
  intro r hr
  rw [decide_eq_true_eq] at hr ⊢
  exact ⟨hr.1, by rw [hr.2]; rfl⟩

lemma wonCount_eq_zero_of_not_observed (d : List RankRec) (g : String)
    (h : (1 : ℤ) ∉ observedRanks d) : wonCount d g = 0 := by
  unfold wonCount rankCell
  rw [List.length_eq_zero, List.filter_eq_nil]
  intro r hr hc
  rw [decide_eq_true_eq] at hc
  exact h (List.mem_dedup.mpr (List.mem_filterMap.mpr ⟨r, hr, hc.2⟩))

/-- C1: in every row of a rank-performance table, Contested equals Won plus
the sum of the other rank columns, which equals the number of records of
the group with a present rank; the strike rate lies in [0, 100] and is 0
whenever Contested is 0. -/
theorem C1_rank_resolver_row_invariants (d : List RankRec) (g : String) :
    contested d g = wonCount d g +
      (((observedRanks d).filter (fun k => decide (k ≠ 1))).map
        (rankCell d g)).sum
    ∧ contested d g = countRanked d g
    ∧ 0 ≤ strikeRate d g ∧ strikeRate d g ≤ 100
    ∧ (contested d g = 0 → strikeRate d g = 0) := by
  have hsplit := sum_split_key (1 : ℤ) (rankCell d g) (observedRanks d)
    (List.nodup_dedup _)
  have h1 : contested d g = wonCount d g +
      (((observedRanks d).filter (fun k => decide (k ≠ 1))).map
        (rankCell d g)).sum := by
    unfold contested
    rw [hsplit]
    by_cases h : (1 : ℤ) ∈ observedRanks d
    · simp [h, wonCount]
    · simp [h, wonCount_eq_zero_of_not_observed d g h]
  have h2 := contested_eq_countRanked d g
  have hle := wonCount_le_contested d g
  constructor
  · exact h1
  constructor
  · exact h2
  have hsr : 0 ≤ strikeRate d g ∧ strikeRate d g ≤ 100 := by
    unfold strikeRate
    by_cases hc : 0 < contested d g
    · have hcq : (0 : ℚ) < (contested d g : ℚ) := by exact_mod_cast hc
      have hwq : (wonCount d g : ℚ) ≤ (contested d g : ℚ) := by
        exact_mod_cast hle
      have hw0 : (0 : ℚ) ≤ (wonCount d g : ℚ) := by positivity
      constructor
      · rw [if_pos hc]
        positivity
      · rw [if_pos hc, div_mul_eq_mul_div, div_le_iff hcq]
        nlinarith
    · rw [if_neg hc]
      norm_num
  refine ⟨hsr.1, hsr.2, ?_⟩
  intro hc0
  unfold strikeRate
  rw [if_neg (by omega)]

/-- Witness for C1 at a concrete record set, with the strike-rate-zero
hypothesis discharged on a group whose only record has no rank. -/
theorem C1_rank_resolver_witness :
    contested [⟨"Grama", some 1⟩, ⟨"Grama", some 2⟩, ⟨"Municipality", some 3⟩,
        ⟨"Grama", none⟩] "Grama" =
      countRanked [⟨"Grama", some 1⟩, ⟨"Grama", some 2⟩,
        ⟨"Municipality", some 3⟩, ⟨"Grama", none⟩] "Grama"
    ∧ contested [⟨"Grama", none⟩] "Grama" = 0
    ∧ strikeRate [⟨"Grama", none⟩] "Grama" = 0 :=
  ⟨(C1_rank_resolver_row_invariants
      [⟨"Grama", some 1⟩, ⟨"Grama", some 2⟩, ⟨"Municipality", some 3⟩,
        ⟨"Grama", none⟩] "Grama").2.1,
    by decide,
    (C1_rank_resolver_row_invariants
      [⟨"Grama", none⟩] "Grama").2.2.2.2 (by decide)⟩

/-! ## Seat crosstab with Total column and Total row
(pages/1_Overall.py lines 122-127; pages/2_District.py lines 104-107 build
the same table without the Total row)

The crosstab is built over winner records (rank 1), reindexed to the fixed
front rows and LBType columns with zero fill, then a Total column is the
row-wise sum and a Total row the column-wise sum of the resulting table. -/

structure SeatRec where
  front : String
  lbtype : String
  rank : Option ℤ
deriving DecidableEq

def FRONT_ORDER : List String := ["UDF", "LDF", "NDA", "OTH"]

def LBTYPE_ORDER : List String :=
  ["Grama", "Municipality", "Corporation", "Block", "District"]

/-- Crosstab cell: winner records of the given front and local-body type. -/
def seatCell (d : List SeatRec) (f c : String) : ℕ :=
  (d.filter (fun r =>
    decide (r.rank = some 1 ∧ r.front = f ∧ r.lbtype = c))).length

/-- The data cells of one front row, in LBType axis order. -/
def rowCells (d : List SeatRec) (f : String) : List ℕ :=
  LBTYPE_ORDER.map (seatCell d f)

/-- The data cells of the synthesized Total row: per column, the sum over
the front rows of the table. -/
def totalRowCells (d : List SeatRec) : List ℕ :=
  LBTYPE_ORDER.map (fun c => (FRONT_ORDER.map (fun f => seatCell d f c)).sum)

/-- The Total cell of the Total row: the column-wise sum of the Total
column of the front rows, as seat_xt.sum() computes it. -/
def grandTotal (d : List SeatRec) : ℕ :=
  (FRONT_ORDER.map (fun f => (rowCells d f).sum)).sum

/-- The full displayed table: one labeled row per front in axis order,
each with its Total column cell appended, then the Total row appended. -/
def frontTable (d : List SeatRec) : List (String × List ℕ) :=
  (FRONT_ORDER.map (fun f => (f, rowCells d f ++ [(rowCells d f).sum])))
    ++ [("Total", totalRowCells d ++ [grandTotal d])]

lemma list_sum_comm {α β : Type} (F : List α) (C : List β) (g : α → β → ℕ) :
    (F.map (fun f => (C.map (g f)).sum)).sum =
      (C.map (fun c => (F.map (fun f => g f c)).sum)).sum := by
  induction F with
  | nil => simp
  | cons f t ih =>
    simp only [List.map_cons, List.sum_cons, ih]
    rw [← sum_map_nat_add]

/-- C2: in the synthesized table, the Total cell of every row (the Total
row included) is the sum of the data cells of that row; every column of
the Total row is the column-wise sum of the category rows; the rows are
the category rows in axis order followed by the Total row appended last. -/
theorem C2_crosstab_total_row_and_column (d : List SeatRec) :
    (∀ p ∈ frontTable d, p.2.getLastD 0 = p.2.dropLast.sum)
    ∧ (∀ j : ℕ, (totalRowCells d).getD j 0 =
        (FRONT_ORDER.map (fun f => (rowCells d f).getD j 0)).sum)
    ∧ (frontTable d).map Prod.fst = FRONT_ORDER ++ ["Total"]
    ∧ frontTable d =
        (FRONT_ORDER.map (fun f => (f, rowCells d f ++ [(rowCells d f).sum])))
          ++ [("Total", totalRowCells d ++ [grandTotal d])] := by
  refine ⟨?_, ?_, ?_, rfl⟩
  · intro p hp
    rcases List.mem_append.mp hp with hmem | hmem
    · rcases List.mem_map.mp hmem with ⟨f, _, hpf⟩
      rw [← hpf]
      simp [List.getLastD_concat, List.dropLast_concat]
    · have hp2 : p = ("Total", totalRowCells d ++ [grandTotal d]) := by
        simpa using hmem
      rw [hp2]
      simp only [List.getLastD_concat, List.dropLast_concat]
      unfold grandTotal totalRowCells rowCells
      exact list_sum_comm FRONT_ORDER LBTYPE_ORDER (seatCell d)
  · intro j
    rcases Nat.lt_or_ge j 5 with hj | hj
    · interval_cases j <;> rfl
    · have hL : (totalRowCells d).getD j 0 = 0 := by
        apply List.getD_eq_default
        simpa [totalRowCells] using hj
      have hall : ∀ f ∈ FRONT_ORDER, (rowCells d f).getD j 0 = 0 := by
        intro f _
        apply List.getD_eq_default
        simpa [rowCells] using hj
      rw [hL, List.map_congr_left hall]
      simp
  · unfold frontTable
    simp [Function.comp_def]

/-- Witness for C2 at a concrete record set, the row-membership
hypothesis discharged on the Total row. -/
theorem C2_crosstab_witness :
    (("Total", totalRowCells [⟨"UDF", "Grama", some 1⟩,
        ⟨"LDF", "Grama", some 1⟩, ⟨"UDF", "Municipality", some 1⟩] ++
        [grandTotal [⟨"UDF", "Grama", some 1⟩, ⟨"LDF", "Grama", some 1⟩,
          ⟨"UDF", "Municipality", some 1⟩]]) ∈
      frontTable [⟨"UDF", "Grama", some 1⟩, ⟨"LDF", "Grama", some 1⟩,
        ⟨"UDF", "Municipality", some 1⟩])
    ∧ (("Total", totalRowCells [⟨"UDF", "Grama", some 1⟩,
        ⟨"LDF", "Grama", some 1⟩, ⟨"UDF", "Municipality", some 1⟩] ++
        [grandTotal [⟨"UDF", "Grama", some 1⟩, ⟨"LDF", "Grama", some 1⟩,
          ⟨"UDF", "Municipality", some 1⟩]]) :
        String × List ℕ).2.getLastD 0 =
      (("Total", totalRowCells [⟨"UDF", "Grama", some 1⟩,
        ⟨"LDF", "Grama", some 1⟩, ⟨"UDF", "Municipality", some 1⟩] ++
        [grandTotal [⟨"UDF", "Grama", some 1⟩, ⟨"LDF", "Grama", some 1⟩,
          ⟨"UDF", "Municipality", some 1⟩]]) :
        String × List ℕ).2.dropLast.sum
    ∧ (totalRowCells [⟨"UDF", "Grama", some 1⟩, ⟨"LDF", "Grama", some 1⟩,
        ⟨"UDF", "Municipality", some 1⟩]).getD 0 0 =
      (FRONT_ORDER.map (fun f => (rowCells [⟨"UDF", "Grama", some 1⟩,
        ⟨"LDF", "Grama", some 1⟩, ⟨"UDF", "Municipality", some 1⟩]
          f).getD 0 0)).sum :=
  ⟨by decide,
    (C2_crosstab_total_row_and_column [⟨"UDF", "Grama", some 1⟩,
      ⟨"LDF", "Grama", some 1⟩, ⟨"UDF", "Municipality", some 1⟩]).1 _
      (by decide),
    (C2_crosstab_total_row_and_column [⟨"UDF", "Grama", some 1⟩,
      ⟨"LDF", "Grama", some 1⟩, ⟨"UDF", "Municipality", some 1⟩]).2.1 0⟩

/-! ## Leader resolver (pages/3_Assembly.py lines 166-177; the row-wise
variant of pages/2_District.py lines 204-208 follows the same rules)

A python dict of named numbers is modelled as an association list in
iteration order; the winners list is the filter of entries attaining the
extreme value, and a single winner is returned only when that list is a
singleton. -/

section FoldExtreme

variable {γ : Type} [LinearOrder γ]

lemma foldl_max_le (l : List γ) :
    ∀ a m : γ, a ≤ m → (∀ x ∈ l, x ≤ m) → l.foldl max a ≤ m := by
  induction l with
  | nil => intro a m ha _; simpa using ha
  | cons x t ih =>
    intro a m ha hl
    simp only [List.foldl_cons]
    exact ih (max a x) m (max_le ha (hl x (List.mem_cons_self x t)))
      (fun y hy => hl y (List.mem_cons_of_mem x hy))

lemma le_foldl_max (l : List γ) : ∀ a : γ, a ≤ l.foldl max a := by
  induction l with
  | nil => intro a; simp
  | cons x t ih =>
    intro a
    simp only [List.foldl_cons]
    exact le_trans (le_max_left a x) (ih (max a x))

lemma mem_le_foldl_max (l : List γ) :
    ∀ (a x : γ), x ∈ l → x ≤ l.foldl max a := by
  induction l with
  | nil => intro a x hx; cases hx
  | cons y t ih =>
    intro a x hx
    simp only [List.foldl_cons]
    rcases List.mem_cons.mp hx with h | h
    · subst h
      exact le_trans (le_max_right a x) (le_foldl_max t (max a x))
    · exact ih (max a y) x h

lemma foldl_max_eq (l : List γ) (a m : γ) (hm : m = a ∨ m ∈ l)
    (ha : a ≤ m) (hl : ∀ x ∈ l, x ≤ m) : l.foldl max a = m := by
  refine le_antisymm (foldl_max_le l a m ha hl) ?_
  rcases hm with h | h
  · exact h ▸ le_foldl_max l a
  · exact mem_le_foldl_max l a m h

lemma le_foldl_min (l : List γ) :
    ∀ a m : γ, m ≤ a → (∀ x ∈ l, m ≤ x) → m ≤ l.foldl min a := by
  induction l with
  | nil => intro a m ha _; simpa using ha
  | cons x t ih =>
    intro a m ha hl
    simp only [List.foldl_cons]
    exact ih (min a x) m (le_min ha (hl x (List.mem_cons_self x t)))
      (fun y hy => hl y (List.mem_cons_of_mem x hy))

lemma foldl_min_le (l : List γ) : ∀ a : γ, l.foldl min a ≤ a := by
  induction l with
  | nil => intro a; simp
  | cons x t ih =>
    intro a
    simp only [List.foldl_cons]
    exact le_trans (ih (min a x)) (min_le_left a x)

lemma foldl_min_le_mem (l : List γ) :
    ∀ (a x : γ), x ∈ l → l.foldl min a ≤ x := by
  induction l with
  | nil => intro a x hx; cases hx
  | cons y t ih =>
    intro a x hx
    simp only [List.foldl_cons]
    rcases List.mem_cons.mp hx with h | h
    · subst h
      exact le_trans (foldl_min_le t (min a x)) (min_le_right a x)
    · exact ih (min a y) x h

lemma foldl_min_eq (l : List γ) (a m : γ) (hm : m = a ∨ m ∈ l)
    (ha : m ≤ a) (hl : ∀ x ∈ l, m ≤ x) : l.foldl min a = m := by
  refine le_antisymm ?_ (le_foldl_min l a m ha hl)
  rcases hm with h | h
  · exact h ▸ foldl_min_le l a
  · exact foldl_min_le_mem l a m h

end FoldExtreme

def winnerFromDict : List (String × ℚ) → Bool → String
  | [], _ => "NONE"
  | p :: rest, true =>
    match (p :: rest).filter
        (fun q => decide (q.2 = ((p :: rest).map Prod.snd).foldl min p.2)) with
    | [w] => w.1
    | _ => "TIE"
  | p :: rest, false =>
    if ((p :: rest).map Prod.snd).foldl max p.2 ≤ 0 then "NONE"
    else
      match (p :: rest).filter
          (fun q => decide (q.2 = ((p :: rest).map Prod.snd).foldl max p.2)) with
      | [w] => w.1
      | _ => "TIE"

/-- m is the maximum of the values of the association list. -/
def IsMaxOf (d : List (String × ℚ)) (m : ℚ) : Prop :=
  (∃ p ∈ d, p.2 = m) ∧ ∀ p ∈ d, p.2 ≤ m

/-- m is the minimum of the values of the association list. -/
def IsMinOf (d : List (String × ℚ)) (m : ℚ) : Prop :=
  (∃ p ∈ d, p.2 = m) ∧ ∀ p ∈ d, m ≤ p.2

instance (d : List (String × ℚ)) (m : ℚ) : Decidable (IsMaxOf d m) := by
  unfold IsMaxOf; infer_instance

instance (d : List (String × ℚ)) (m : ℚ) : Decidable (IsMinOf d m) := by
  unfold IsMinOf; infer_instance

lemma foldl_max_of_isMaxOf (p : String × ℚ) (rest : List (String × ℚ))
    (m : ℚ) (h : IsMaxOf (p :: rest) m) :
    ((p :: rest).map Prod.snd).foldl max p.2 = m := by
  obtain ⟨⟨q, hq, hqm⟩, hub⟩ := h
  apply foldl_max_eq
  · rcases List.mem_cons.mp hq with h | h
    · exact Or.inl (by rw [← hqm, h])
    · exact Or.inr (List.mem_map.mpr ⟨q, List.mem_cons_of_mem p h, hqm⟩)
  · exact hub p (List.mem_cons_self p rest)
  · intro x hx
    rcases List.mem_map.mp hx with ⟨q', hq', hq'x⟩
    exact hq'x ▸ hub q' hq'

lemma foldl_min_of_isMinOf (p : String × ℚ) (rest : List (String × ℚ))
    (m : ℚ) (h : IsMinOf (p :: rest) m) :
    ((p :: rest).map Prod.snd).foldl min p.2 = m := by
  obtain ⟨⟨q, hq, hqm⟩, hlb⟩ := h
  apply foldl_min_eq
  · rcases List.mem_cons.mp hq with h | h
    · exact Or.inl (by rw [← hqm, h])
    · exact Or.inr (List.mem_map.mpr ⟨q, List.mem_cons_of_mem p h, hqm⟩)
  · exact hlb p (List.mem_cons_self p rest)
  · intro x hx
    rcases List.mem_map.mp hx with ⟨q', hq', hq'x⟩
    exact hq'x ▸ hlb q' hq'

/-- C3: the leader resolver returns NONE on the empty map and, with
preferLow false, NONE when the maximum is 0, the unique attaining
category when the maximum is positive and attained exactly once, and TIE
when a positive maximum is attained at least twice; with preferLow true
the unique minimizer (a minimum of 0 included) is returned, at least two
minimizers give TIE, and a nonempty map never yields NONE other than as a
category label of the input. -/
theorem C3_leader_resolver (d : List (String × ℚ)) (m : ℚ) :
    (winnerFromDict [] false = "NONE" ∧ winnerFromDict [] true = "NONE")
    ∧ (IsMaxOf d m → m = 0 → winnerFromDict d false = "NONE")
    ∧ (IsMaxOf d m → 0 < m → ∀ c v,
        d.filter (fun q => decide (q.2 = m)) = [(c, v)] →
          winnerFromDict d false = c)
    ∧ (IsMaxOf d m → 0 < m →
        2 ≤ (d.filter (fun q => decide (q.2 = m))).length →
          winnerFromDict d false = "TIE")
    ∧ (IsMinOf d m → ∀ c v,
        d.filter (fun q => decide (q.2 = m)) = [(c, v)] →
          winnerFromDict d true = c)
    ∧ (IsMinOf d m →
        2 ≤ (d.filter (fun q => decide (q.2 = m))).length →
          winnerFromDict d true = "TIE")
    ∧ (d ≠ [] → winnerFromDict d true = "TIE" ∨
        ∃ p ∈ d, winnerFromDict d true = p.1) := by
  refine ⟨⟨rfl, rfl⟩, ?_, ?_, ?_, ?_, ?_, ?_⟩
  · intro hmax hm0
    cases d with
    | nil => rfl
    | cons p rest =>
      have hfold := foldl_max_of_isMaxOf p rest m hmax
      simp only [winnerFromDict, hfold, hm0]
      norm_num
  · intro hmax hmpos c v hfil
    cases d with
    | nil => simp at hfil
    | cons p rest =>
      have hfold := foldl_max_of_isMaxOf p rest m hmax
      simp only [winnerFromDict, hfold, hfil]
      rw [if_neg (by linarith)]
  · intro hmax hmpos hlen
    cases d with
    | nil => simp at hlen
    | cons p rest =>
      have hfold := foldl_max_of_isMaxOf p rest m hmax
      simp only [winnerFromDict, hfold]
      rw [if_neg (by linarith)]
      rcases hw : (p :: rest).filter (fun q => decide (q.2 = m)) with
        _ | ⟨a, _ | ⟨b, t⟩⟩
      · rw [hw] at hlen; simp at hlen
      · rw [hw] at hlen; simp at hlen
      · rw [hw]
  · intro hmin c v hfil
    cases d with
    | nil => simp at hfil
    | cons p rest =>
      have hfold := foldl_min_of_isMinOf p rest m hmin
      simp only [winnerFromDict, hfold, hfil]
  · intro hmin hlen
    cases d with
    | nil => simp at hlen
    | cons p rest =>
      have hfold := foldl_min_of_isMinOf p rest m hmin
      simp only [winnerFromDict, hfold]
      rcases hw : (p :: rest).filter (fun q => decide (q.2 = m)) with
        _ | ⟨a, _ | ⟨b, t⟩⟩
      · rw [hw] at hlen; simp at hlen
      · rw [hw] at hlen; simp at hlen
      · rw [hw]
  · intro hne
    cases d with
    | nil => exact absurd rfl hne
    | cons p rest =>
      simp only [winnerFromDict]
      rcases hw : (p :: rest).filter (fun q =>
          decide (q.2 = ((p :: rest).map Prod.snd).foldl min p.2)) with
        _ | ⟨a, _ | ⟨b, t⟩⟩
      · rw [hw]
        exact Or.inl rfl
      · rw [hw]
        refine Or.inr ⟨a, ?_, rfl⟩
        have ha : a ∈ (p :: rest).filter (fun q =>
            decide (q.2 = ((p :: rest).map Prod.snd).foldl min p.2)) := by
          rw [hw]; exact List.mem_singleton_self a
        exact List.mem_of_mem_filter ha
      · rw [hw]
        exact Or.inl rfl

/-- Witness for C3 at the concrete maps of the spec examples. -/
theorem C3_leader_resolver_witness :
    winnerFromDict [("UDF", 7), ("LDF", 3)] false = "UDF"
    ∧ winnerFromDict [("UDF", 5), ("LDF", 5), ("NDA", 0), ("OTH", 0)]
        false = "TIE"
    ∧ winnerFromDict [("UDF", 0), ("LDF", 0)] false = "NONE"
    ∧ winnerFromDict [("UDF", 1), ("LDF", 2)] true = "UDF" := by
  refine ⟨?_, ?_, ?_, ?_⟩
  · exact (C3_leader_resolver [("UDF", 7), ("LDF", 3)] 7).2.2.1
      (by decide) (by norm_num) "UDF" 7 (by decide)
  · exact (C3_leader_resolver
      [("UDF", 5), ("LDF", 5), ("NDA", 0), ("OTH", 0)] 5).2.2.2.1
      (by decide) (by norm_num) (by decide)
  · exact (C3_leader_resolver [("UDF", 0), ("LDF", 0)] 0).2.1
      (by decide) rfl
  · exact (C3_leader_resolver [("UDF", 1), ("LDF", 2)] 1).2.2.2.2.1
      (by decide) "UDF" 1 (by decide)

/-! ## Ward-pairing joiner (pages/6_Front.py lines 258-299)

A ward record carries the join key (the ward key columns), the front and
the coerced rank. The source takes the rank-1 rows as winners and the
rank-2 rows as runners, left-merges the focal winners with the runners on
the ward key and counts merge rows per runner front; since the groupby
drops missing keys, a winner row with no matching runner contributes to
no group, and a winner row with several matching runner rows contributes
one merge row per match. -/

structure WardRec where
  unit : String
  front : String
  rank : Option ℤ
deriving DecidableEq

def winnersOf (d : List WardRec) : List WardRec :=
  d.filter (fun r => decide (r.rank = some 1))

def runnersOf (d : List WardRec) : List WardRec :=
  d.filter (fun r => decide (r.rank = some 2))

/-- Merge-row count per opposing front when the focal front won:
the embedding of the wins_sel merge and RunnerFront groupby size. -/
def countWhenFocalWon (d : List WardRec) (focal opp : String) : ℕ :=
  (((winnersOf d).filter (fun w => decide (w.front = focal))).map
    (fun w => ((runnersOf d).filter
      (fun r => decide (r.unit = w.unit ∧ r.front = opp))).length)).sum

/-- Merge-row count per opposing front when the focal front came second:
the embedding of the sec_sel merge and WinnerFront groupby size. -/
def countWhenFocalRunnerUp (d : List WardRec) (focal opp : String) : ℕ :=
  (((runnersOf d).filter (fun r => decide (r.front = focal))).map
    (fun r => ((winnersOf d).filter
      (fun w => decide (w.unit = r.unit ∧ w.front = opp))).length)).sum

/-- The distinct ward keys of the record set. -/
def unitList (d : List WardRec) : List String :=
  (d.map (fun r => r.unit)).dedup

def focalWinnersAt (d : List WardRec) (focal u : String) : ℕ :=
  ((winnersOf d).filter (fun w => decide (w.unit = u ∧ w.front = focal))).length

def focalRunnersAt (d : List WardRec) (focal u : String) : ℕ :=
  ((runnersOf d).filter (fun r => decide (r.unit = u ∧ r.front = focal))).length

lemma countKey_filter_winners (d : List WardRec) (focal u : String) :
    countKey (fun w : WardRec => w.unit)
      ((winnersOf d).filter (fun w => decide (w.front = focal))) u =
      focalWinnersAt d focal u := by
  unfold countKey focalWinnersAt
  rw [List.filter_filter]
  congr 1
  apply List.filter_congr
  intro w _
  by_cases h1 : w.unit = u <;> by_cases h2 : w.front = focal <;>
    simp [h1, h2]

lemma countKey_filter_runners (d : List WardRec) (focal u : String) :
    countKey (fun r : WardRec => r.unit)
      ((runnersOf d).filter (fun r => decide (r.front = focal))) u =
      focalRunnersAt d focal u := by
  unfold countKey focalRunnersAt
  rw [List.filter_filter]
  congr 1
  apply List.filter_congr
  intro r _
  by_cases h1 : r.unit = u <;> by_cases h2 : r.front = focal <;>
    simp [h1, h2]

lemma countWhenFocalWon_fiber (d : List WardRec) (focal opp : String) :
    countWhenFocalWon d focal opp =
      ((unitList d).map (fun u =>
        focalWinnersAt d focal u * focalRunnersAt d opp u)).sum := by
  have hcov : ∀ w ∈ (winnersOf d).filter (fun w => decide (w.front = focal)),
      (fun w : WardRec => w.unit) w ∈ unitList d := by
    intro w hw
    have hwd : w ∈ d :=
      List.mem_of_mem_filter (List.mem_of_mem_filter hw)
    exact List.mem_dedup.mpr (List.mem_map.mpr ⟨w, hwd, rfl⟩)
  have hfib := sum_fiberwise (fun w : WardRec => w.unit)
    (fun u => focalRunnersAt d opp u)
    ((winnersOf d).filter (fun w => decide (w.front = focal)))
    (unitList d) (List.nodup_dedup _) hcov
  have hlhs : countWhenFocalWon d focal opp =
      (((winnersOf d).filter (fun w => decide (w.front = focal))).map
        (fun w => focalRunnersAt d opp w.unit)).sum := rfl
  rw [hlhs, hfib]
  congr 1
  apply List.map_congr_left
  intro u _
  rw [countKey_filter_winners d focal u]

lemma countWhenFocalRunnerUp_fiber (d : List WardRec) (focal opp : String) :
    countWhenFocalRunnerUp d focal opp =
      ((unitList d).map (fun u =>
        focalRunnersAt d focal u * focalWinnersAt d opp u)).sum := by
  have hcov : ∀ r ∈ (runnersOf d).filter (fun r => decide (r.front = focal)),
      (fun r : WardRec => r.unit) r ∈ unitList d := by
    intro r hr
    have hrd : r ∈ d :=
      List.mem_of_mem_filter (List.mem_of_mem_filter hr)
    exact List.mem_dedup.mpr (List.mem_map.mpr ⟨r, hrd, rfl⟩)
  have hfib := sum_fiberwise (fun r : WardRec => r.unit)
    (fun u => focalWinnersAt d opp u)
    ((runnersOf d).filter (fun r => decide (r.front = focal)))
    (unitList d) (List.nodup_dedup _) hcov
  have hlhs : countWhenFocalRunnerUp d focal opp =
      (((runnersOf d).filter (fun r => decide (r.front = focal))).map
        (fun r => focalWinnersAt d opp r.unit)).sum := rfl
  rw [hlhs, hfib]
  congr 1
  apply List.map_congr_left
  intro u _
  rw [countKey_filter_runners d focal u]

/-- C7 counterexample: a unit with two rank-1 records of the focal front
and one rank-2 record contributes two merge rows to the breakdown, not at
most one as the claim states. -/
theorem C7_duplicate_winner_counterexample :
    countWhenFocalWon
      [⟨"U", "UDF", some 1⟩, ⟨"U", "UDF", some 1⟩, ⟨"U", "LDF", some 2⟩]
      "UDF" "LDF" = 2
    ∧ (unitList
      [⟨"U", "UDF", some 1⟩, ⟨"U", "UDF", some 1⟩, ⟨"U", "LDF", some 2⟩]).length
      = 1 := by
  constructor <;> rfl

/-- C7 amended: on duplicate rank-1 data the joiner never fails and
computes a deterministic result, but does not collapse multiple winners:
every unit contributes, for each pair of fronts, the number of its focal
rank-1 records times the number of its matching rank-2 records to the
breakdown counts, so a unit with several rank-1 focal records can
contribute more than one. -/
theorem C7_join_counts_are_per_unit_products (d : List WardRec)
    (focal opp : String) :
    countWhenFocalWon d focal opp =
      ((unitList d).map (fun u =>
        focalWinnersAt d focal u * focalRunnersAt d opp u)).sum
    ∧ countWhenFocalRunnerUp d focal opp =
      ((unitList d).map (fun u =>
        focalRunnersAt d focal u * focalWinnersAt d opp u)).sum :=
  ⟨countWhenFocalWon_fiber d focal opp,
    countWhenFocalRunnerUp_fiber d focal opp⟩

lemma length_filter_le_one_of_nodup_key {α β : Type} [DecidableEq β]
    (key : α → β) (u : β) (q : α → Bool)
    (hq : ∀ a, q a = true → key a = u) :
    ∀ l : List α, (l.map key).Nodup → (l.filter q).length ≤ 1 := by
  intro l
  induction l with
  | nil => intro _; simp
  | cons a t ih =>
    intro hnd
    rw [List.map_cons] at hnd
    obtain ⟨hka, hndt⟩ := List.nodup_cons.mp hnd
    by_cases hqa : q a = true
    · have htail : t.filter q = [] := by
        rw [List.filter_eq_nil_iff]
        intro b hb hqb
        exact hka (List.mem_map.mpr
          ⟨b, hb, (hq b hqb).trans (hq a hqa).symm⟩)
      simp [List.filter_cons, hqa, htail]
    · simp only [List.filter_cons, hqa]
      simpa using ih hndt

lemma sum_map_eq_count_pos {β : Type} (f : β → ℕ) :
    ∀ ks : List β, (∀ u ∈ ks, f u ≤ 1) →
      (ks.map f).sum = (ks.filter (fun u => decide (0 < f u))).length := by
  intro ks
  induction ks with
  | nil => intro _; simp
  | cons u t ih =>
    intro hb
    have hu : f u ≤ 1 := hb u (List.mem_cons_self u t)
    have ht : ∀ v ∈ t, f v ≤ 1 :=
      fun v hv => hb v (List.mem_cons_of_mem u hv)
    interval_cases h : f u <;>
      simp [List.filter_cons, h, ih ht] <;> omega

/-- Units whose winner has the focal front and whose runner has the given
opposing front. -/
def unitsFocalWonAgainst (d : List WardRec) (focal opp : String) : ℕ :=
  ((unitList d).filter (fun u =>
    decide (0 < focalWinnersAt d focal u ∧ 0 < focalRunnersAt d opp u))).length

/-- Units whose runner has the focal front and whose winner has the given
opposing front. -/
def unitsFocalRunnerUpAgainst (d : List WardRec) (focal opp : String) : ℕ :=
  ((unitList d).filter (fun u =>
    decide (0 < focalRunnersAt d focal u ∧ 0 < focalWinnersAt d opp u))).length

lemma focalWinnersAt_le_one (d : List WardRec) (focal u : String)
    (hw : ((winnersOf d).map (fun w => w.unit)).Nodup) :
    focalWinnersAt d focal u ≤ 1 := by
  unfold focalWinnersAt
  apply length_filter_le_one_of_nodup_key (fun w : WardRec => w.unit) u
  · intro a ha
    rw [decide_eq_true_eq] at ha
    exact ha.1
  · exact hw

lemma focalRunnersAt_le_one (d : List WardRec) (focal u : String)
    (hr : ((runnersOf d).map (fun r => r.unit)).Nodup) :
    focalRunnersAt d focal u ≤ 1 := by
  unfold focalRunnersAt
  apply length_filter_le_one_of_nodup_key (fun r : WardRec => r.unit) u
  · intro a ha
    rw [decide_eq_true_eq] at ha
    exact ha.1
  · exact hr

/-- C6 counterexample: a ward whose focal front won with no rank-2 record
is not counted under the label UNKNOWN (nor any other label): the groupby
drops it, so the UNKNOWN count is 0 where the claim requires 1. -/
theorem C6_unknown_runner_counterexample :
    countWhenFocalWon [⟨"W", "UDF", some 1⟩] "UDF" "UNKNOWN" = 0
    ∧ (winnersOf [⟨"W", "UDF", some 1⟩]).length = 1
    ∧ runnersOf [⟨"W", "UDF", some 1⟩] = [] := by
  refine ⟨rfl, rfl, rfl⟩

/-- C6 amended: when every unit has at most one rank-1 and at most one
rank-2 record, countWhenFocalWon[opp] is the number of units whose winner
has the focal front and whose runner has front opp, and symmetrically for
countWhenFocalRunnerUp; units with no rank-2 record are dropped from the
breakdown rather than counted under UNKNOWN. -/
theorem C6_opponent_breakdown_counts_units (d : List WardRec)
    (focal opp : String)
    (hw : ((winnersOf d).map (fun w => w.unit)).Nodup)
    (hr : ((runnersOf d).map (fun r => r.unit)).Nodup) :
    countWhenFocalWon d focal opp = unitsFocalWonAgainst d focal opp
    ∧ countWhenFocalRunnerUp d focal opp =
        unitsFocalRunnerUpAgainst d focal opp := by
  constructor
  · rw [countWhenFocalWon_fiber d focal opp]
    rw [sum_map_eq_count_pos _ (unitList d) (fun u _ => by
      simpa using Nat.mul_le_mul (focalWinnersAt_le_one d focal u hw)
        (focalRunnersAt_le_one d opp u hr))]
    unfold unitsFocalWonAgainst
    congr 1
    apply List.filter_congr
    intro u _
    rw [decide_eq_decide]
    rw [Nat.pos_iff_ne_zero, Nat.pos_iff_ne_zero, Nat.pos_iff_ne_zero,
      Nat.mul_ne_zero_iff]
  · rw [countWhenFocalRunnerUp_fiber d focal opp]
    rw [sum_map_eq_count_pos _ (unitList d) (fun u _ => by
      simpa using Nat.mul_le_mul (focalRunnersAt_le_one d focal u hr)
        (focalWinnersAt_le_one d opp u hw))]
    unfold unitsFocalRunnerUpAgainst
    congr 1
    apply List.filter_congr
    intro u _
    rw [decide_eq_decide]
    rw [Nat.pos_iff_ne_zero, Nat.pos_iff_ne_zero, Nat.pos_iff_ne_zero,
      Nat.mul_ne_zero_iff]

/-- Witness for C6 at the two-ward example of the spec: focal UDF against
LDF yields one unit in each direction. -/
theorem C6_opponent_breakdown_witness :
    countWhenFocalWon
        [⟨"W1", "UDF", some 1⟩, ⟨"W1", "LDF", some 2⟩,
         ⟨"W2", "LDF", some 1⟩, ⟨"W2", "UDF", some 2⟩] "UDF" "LDF" =
      unitsFocalWonAgainst
        [⟨"W1", "UDF", some 1⟩, ⟨"W1", "LDF", some 2⟩,
         ⟨"W2", "LDF", some 1⟩, ⟨"W2", "UDF", some 2⟩] "UDF" "LDF"
    ∧ countWhenFocalRunnerUp
        [⟨"W1", "UDF", some 1⟩, ⟨"W1", "LDF", some 2⟩,
         ⟨"W2", "LDF", some 1⟩, ⟨"W2", "UDF", some 2⟩] "UDF" "LDF" =
      unitsFocalRunnerUpAgainst
        [⟨"W1", "UDF", some 1⟩, ⟨"W1", "LDF", some 2⟩,
         ⟨"W2", "LDF", some 1⟩, ⟨"W2", "UDF", some 2⟩] "UDF" "LDF"
    ∧ countWhenFocalWon
        [⟨"W1", "UDF", some 1⟩, ⟨"W1", "LDF", some 2⟩,
         ⟨"W2", "LDF", some 1⟩, ⟨"W2", "UDF", some 2⟩] "UDF" "LDF" = 1
    ∧ countWhenFocalRunnerUp
        [⟨"W1", "UDF", some 1⟩, ⟨"W1", "LDF", some 2⟩,
         ⟨"W2", "LDF", some 1⟩, ⟨"W2", "UDF", some 2⟩] "UDF" "LDF" = 1 := by
  refine ⟨?_, ?_, rfl, rfl⟩
  · exact (C6_opponent_breakdown_counts_units
      [⟨"W1", "UDF", some 1⟩, ⟨"W1", "LDF", some 2⟩,
       ⟨"W2", "LDF", some 1⟩, ⟨"W2", "UDF", some 2⟩] "UDF" "LDF"
      (by decide) (by decide)).1
  · exact (C6_opponent_breakdown_counts_units
      [⟨"W1", "UDF", some 1⟩, ⟨"W1", "LDF", some 2⟩,
       ⟨"W2", "LDF", some 1⟩, ⟨"W2", "UDF", some 2⟩] "UDF" "LDF"
      (by decide) (by decide)).2

/-! ## Normalizer: ward totals and vote percentage
(lib/data.py lines 116-122)

WardTotalVotes is the groupby-transform sum of votes over the ward key.
VotePercentage is the plain vectorized division votes / total * 100 under
a suppressed-warning errstate: a zero denominator yields NaN or infinity,
not a number; both are modelled as a missing value. -/

structure VoteRec where
  ward : String
  votes : ℤ
deriving DecidableEq

def wardTotalVotes (d : List VoteRec) (w : String) : ℤ :=
  ((d.filter (fun r => decide (r.ward = w))).map (fun r => r.votes)).sum

def votePercentage (d : List VoteRec) (r : VoteRec) : Option ℚ :=
  if wardTotalVotes d r.ward = 0 then none
  else some ((r.votes : ℚ) / (wardTotalVotes d r.ward : ℚ) * 100)

/-- C8 counterexample: a ward whose total is 0 gives a missing (NaN)
vote percentage, not the value 0 the claim requires. -/
theorem C8_zero_denominator_counterexample :
    votePercentage [⟨"W", 0⟩] ⟨"W", 0⟩ = none
    ∧ votePercentage [⟨"W", 0⟩] ⟨"W", 0⟩ ≠ some 0 := by
  decide

/-- C8 amended: the vote percentage satisfies percentage * total =
votes * 100 whenever the ward total is nonzero, and is undefined
(NaN or infinite, modelled as missing) when the ward total is 0. -/
theorem C8_vote_percentage_characterization (d : List VoteRec)
    (r : VoteRec) :
    (wardTotalVotes d r.ward ≠ 0 → ∃ p : ℚ,
      votePercentage d r = some p ∧
        p * (wardTotalVotes d r.ward : ℚ) = (r.votes : ℚ) * 100)
    ∧ (wardTotalVotes d r.ward = 0 → votePercentage d r = none) := by
  constructor
  · intro h
    refine ⟨(r.votes : ℚ) / (wardTotalVotes d r.ward : ℚ) * 100, ?_, ?_⟩
    · simp [votePercentage, h]
    · have hq : ((wardTotalVotes d r.ward : ℚ)) ≠ 0 := by
        exact_mod_cast h
      field_simp
  · intro h
    simp [votePercentage, h]

/-- Witness for C8 at a two-record ward with votes 60 and 40. -/
theorem C8_vote_percentage_witness :
    wardTotalVotes [⟨"W", 60⟩, ⟨"W", 40⟩] "W" ≠ 0
    ∧ wardTotalVotes [⟨"W", 0⟩] "W" = 0
    ∧ (∃ p : ℚ, votePercentage [⟨"W", 60⟩, ⟨"W", 40⟩] ⟨"W", 60⟩ = some p ∧
        p * (wardTotalVotes [⟨"W", 60⟩, ⟨"W", 40⟩] "W" : ℚ) =
          ((60 : ℤ) : ℚ) * 100)
    ∧ votePercentage [⟨"W", 0⟩] ⟨"W", 0⟩ = none := by
  refine ⟨by decide, by decide, ?_, ?_⟩
  · exact (C8_vote_percentage_characterization
      [⟨"W", 60⟩, ⟨"W", 40⟩] ⟨"W", 60⟩).1 (by decide)
  · exact (C8_vote_percentage_characterization [⟨"W", 0⟩] ⟨"W", 0⟩).2
      (by decide)

/-! ## Missing-column behaviour of the LBType performance table
(pages/6_Front.py lines 101-102; the District page lines 120-121 likewise
skips its rank table with an informational note instead of raising)

The frame records which of the needed columns exist; the function returns
a plain (empty) table on the missing-column path, it has no error
channel, modelled by an Except result that is always ok. -/

structure FrontRow where
  tierNorm : String
  front : String
  lbtype : String
  rank : Option ℤ
deriving DecidableEq

structure FrontFrame where
  hasRank : Bool
  hasTierNorm : Bool
  rows : List FrontRow
deriving DecidableEq

structure PerfRow where
  lbtype : String
  won : ℕ
  otherRankCells : List ℕ
  contestedVal : ℕ
  strikeRateVal : ℚ
deriving DecidableEq

def FRONT_BASE_ROWS (includeBD : Bool) : List String :=
  ["Grama", "Municipality", "Corporation"] ++
    (if includeBD then ["Block", "District"] else [])

def tableLbtypePerformanceFront (fr : FrontFrame) (sel : String)
    (includeBD : Bool) : Except String (List PerfRow) :=
  if ¬ (fr.hasRank ∧ fr.hasTierNorm) then .ok []
  else
    let tiers := if includeBD then ["Ward", "Block", "District"]
      else ["Ward"]
    let dRecs := (fr.rows.filter (fun r =>
      decide (r.tierNorm ∈ tiers ∧ r.front = sel))).map
        (fun r => RankRec.mk r.lbtype r.rank)
    if dRecs = [] then .ok []
    else
      let dCat := dRecs.filter (fun r =>
        decide (r.group ∈ FRONT_BASE_ROWS includeBD))
      .ok ((FRONT_BASE_ROWS includeBD).map (fun g =>
        ⟨g, wonCount dCat g,
          ((observedRanks dCat).filter (fun k => decide (k ≠ 1))).map
            (rankCell dCat g),
          contested dCat g, strikeRate dCat g⟩))

/-- C9 counterexample: with the Rank column absent but data rows present,
the table builder silently returns an ok empty table instead of
signalling a validation error. -/
theorem C9_missing_column_counterexample :
    tableLbtypePerformanceFront
      ⟨false, true, [⟨"Ward", "UDF", "Grama", some 1⟩]⟩ "UDF" true =
      Except.ok [] := rfl

/-- C9 amended: when the Rank or the TierNorm column is absent the
function aborts nothing and raises nothing: it returns an ok empty
table (the District page analogously skips its table with a note). -/
theorem C9_missing_column_silent_empty (fr : FrontFrame) (sel : String)
    (includeBD : Bool)
    (h : fr.hasRank = false ∨ fr.hasTierNorm = false) :
    tableLbtypePerformanceFront fr sel includeBD = Except.ok [] := by
  unfold tableLbtypePerformanceFront
  rcases h with h | h <;> simp [h]

/-- Witness for C9 at a frame missing the TierNorm column. -/
theorem C9_missing_column_witness :
    ((⟨true, false, [⟨"Ward", "LDF", "Grama", some 2⟩]⟩ :
        FrontFrame).hasRank = false ∨
      (⟨true, false, [⟨"Ward", "LDF", "Grama", some 2⟩]⟩ :
        FrontFrame).hasTierNorm = false)
    ∧ tableLbtypePerformanceFront
        ⟨true, false, [⟨"Ward", "LDF", "Grama", some 2⟩]⟩ "LDF" false =
        Except.ok [] :=
  ⟨Or.inr rfl, C9_missing_column_silent_empty
    ⟨true, false, [⟨"Ward", "LDF", "Grama", some 2⟩]⟩ "LDF" false
    (Or.inr rfl)⟩

/-! ## Normalizer label columns (lib/data.py lines 124-135)

String columns are stripped; the Tier and LBType columns are then cast to
string and title-cased. A missing cell stringifies to "nan", so after the
cast and title-casing it is the literal "Nan". -/

/-- Python str() of a possibly missing cell: NaN prints as "nan". -/
def pyStrOfCell (v : Option String) : String := v.getD "nan"

def pyTitleAux : Bool → List Char → List Char
  | _, [] => []
  | prevAlpha, c :: cs =>
    (if c.isAlpha then (if prevAlpha then c.toLower else c.toUpper) else c)
      :: pyTitleAux c.isAlpha cs

/-- Python str.title(): the first letter of each alphabetic run is
uppercased, the following letters lowercased. -/
def pyTitle (s : String) : String := ⟨pyTitleAux false s.data⟩

/-- Python str.strip(): leading and trailing whitespace removed. -/
def pyStrip (s : String) : String :=
  ⟨((s.data.dropWhile (fun c => c.isWhitespace)).reverse.dropWhile
      (fun c => c.isWhitespace)).reverse⟩

/-- The normalization applied to the Tier and LBType columns: strip,
cast to string, title-case. -/
def normalizeLabelCell (v : Option String) : String :=
  pyTitle (pyStrip (pyStrOfCell v))

/-- C10: a missing Tier or LBType cell normalizes to the literal string
"Nan": a non-empty label matching no canonical Tier or LBType value. -/
theorem C10_missing_label_becomes_Nan :
    normalizeLabelCell none = "Nan"
    ∧ "Nan" ≠ ""
    ∧ "Nan" ∉ ["Ward", "Block", "District"]
    ∧ "Nan" ∉ ["Grama", "Municipality", "Corporation", "Block", "District"] := by
  refine ⟨by decide, by decide, by decide, by decide⟩

end LSGD
